import Mathlib

/-!
Shallow embedding of `src/ibuk_dl/main.py` (ibuk-dl): the websocket protocol
client (`IbukWebSocketSession`), the sequential download orchestrator
(`perform_download_action`), the emptiness classifier (`is_html_empty`), the
conversion pipeline (`perform_convert_action`, pdf branch) and the merger
(`merge_pdfs`).  Python values decoded from JSON are modelled by `PyVal`,
exceptions by `Except`, the inbound websocket stream by a `List String`.
-/

namespace IbukDl

/-- Model of a Python value as produced by `json.loads`: the cases the decoders
touch (None, bool, int, str, list, dict as an association list). -/
inductive PyVal where
  | pyNone
  | pyBool (b : Bool)
  | pyInt (n : Int)
  | pyStr (s : String)
  | pyList (xs : List PyVal)
  | pyDict (fields : List (String × PyVal))

/-- A decoded JSON object (Python dict), as an association list. -/
abbrev PyDict := List (String × PyVal)

/-- Python truthiness (`if x:`) for the modelled values. -/
def pyTruthy : PyVal → Bool
  | .pyNone => false
  | .pyBool b => b
  | .pyInt n => decide (n ≠ 0)
  | .pyStr s => decide (s ≠ "")
  | .pyList xs => !xs.isEmpty
  | .pyDict fs => !fs.isEmpty

/-- Python `dict.get(key, default)`. -/
def pyGet (d : PyDict) (k : String) (dflt : PyVal) : PyVal :=
  (d.lookup k).getD dflt

/-- Failure modes of the decode step of the fetch operations: `authorization`
models `raise PermissionError(...)`, `keyError` a Python `KeyError` from
`data["html"]`, `typeError` a `TypeError` from `re.sub` on a non-string. -/
inductive FetchError where
  | authorization (message : PyVal)
  | keyError (key : String)
  | typeError

/-- Decode step of `IbukWebSocketSession.get_page` (main.py lines 186-188),
applied to the already JSON-decoded result object `data`:
`if data.get("error", False): raise PermissionError(data.get("message", "Error fetching page"))`
then `return data["html"]`. -/
def get_page_decode (data : PyDict) : Except FetchError PyVal :=
  if pyTruthy (pyGet data "error" (.pyBool false)) then
    .error (.authorization (pyGet data "message" (.pyStr "Error fetching page")))
  else
    match data.lookup "html" with
    | some v => .ok v
    | none => .error (.keyError "html")

/-- Decode step of `IbukWebSocketSession.get_css` (main.py line 193): the
result object is indexed by `"html"` with no inspection of `"error"`. -/
def get_css_decode (data : PyDict) : Except FetchError PyVal :=
  match data.lookup "html" with
  | some v => .ok v
  | none => .error (.keyError "html")

/-- Boolean "first list is a prefix of the second" over characters (kernel-reducible
replacement for `String.isPrefixOf`). -/
def listPrefix : List Char → List Char → Bool
  | [], _ => true
  | _ :: _, [] => false
  | a :: as, b :: bs => a == b && listPrefix as bs

/-- Boolean substring containment over characters: Python's `pat in s`. -/
def containsSub (pat : List Char) : List Char → Bool
  | [] => pat.isEmpty
  | c :: cs => listPrefix pat (c :: cs) || containsSub pat cs

/-- Python's `pat in s` on strings. -/
def strContains (s pat : String) : Bool := containsSub pat.data s.data

/-- Worker for `pySplit`: scans the character list left to right, cutting at each
occurrence of `sep` (Python `str.split(sep)` semantics).  `fuel` only guarantees
structural termination; with `fuel ≥ length` of the input it is never exhausted. -/
def pySplitGo (sep : List Char) : Nat → List Char → List Char → List (List Char)
  | _, acc, [] => [acc.reverse]
  | 0, acc, s => [acc.reverse ++ s]
  | fuel + 1, acc, c :: cs =>
    if !sep.isEmpty && listPrefix sep (c :: cs) then
      acc.reverse :: pySplitGo sep fuel [] ((c :: cs).drop sep.length)
    else
      pySplitGo sep fuel (c :: acc) cs

/-- Python `s.split(sep)` for a non-empty separator: splits at every
(non-overlapping, leftmost-first) occurrence of `sep`. -/
def pySplit (sep s : String) : List String :=
  (pySplitGo sep.data (s.data.length + 1) [] s.data).map String.mk

/-- Python `re.sub(pat, rep, s)` for the literal (metacharacter-free) patterns the
source uses; modelled as split-and-rejoin, which is how CPython's `str.replace`
behaves for literal patterns. -/
def pyReplace (pat rep s : String) : String :=
  String.intercalate rep (pySplit pat s)

/-- Decode step of `IbukWebSocketSession.get_fonts` (main.py lines 198-199):
index the result object by `"html"` (KeyError if absent), then
`re.sub("; format", " format", fonts)` (TypeError if the value is not a string). -/
def get_fonts_decode (data : PyDict) : Except FetchError PyVal :=
  match data.lookup "html" with
  | some (.pyStr s) => .ok (.pyStr (pyReplace "; format" " format" s))
  | some _ => .error .typeError
  | none => .error (.keyError "html")

/-- The socket.io event prefix used by every RPC response parse in the source. -/
def rpcSep : String := "42/books,"

/-- The tail-extraction step shared by `get_page`, `get_css` and `get_fonts`
(main.py lines 186, 193, 198): `r.split("42/books,")[1]`, the string then handed
to the outer JSON-array decode.  `none` models the IndexError raised when the
split yields fewer than two chunks. -/
def rpcTail (msg : String) : Option String :=
  match pySplit rpcSep msg with
  | _ :: t :: _ => some t
  | _ => none

/-- Modelled from the spec's words, for comparison with `rpcTail`: "taking
everything after the `42/books,` prefix" of the message, i.e. the full suffix
after the leading prefix. -/
def specRpcTail (msg : String) : Option String :=
  if listPrefix rpcSep.data msg.data then
    some (String.mk (msg.data.drop rpcSep.data.length))
  else
    none

/-- `IbukWebSocketSession._handle_recv` (main.py lines 174-180) run against a
queue of inbound messages: loop reading messages; on a bare `"2"` (ping) send
`"3"` (pong) and keep waiting; otherwise return the message.  Result: the
returned message, the remaining inbound queue, and the pongs sent (in order);
`none` models blocking forever on an exhausted queue. -/
def handle_recv : List String → Option (String × List String × List String)
  | [] => none
  | m :: rest =>
    if m == "2" then
      match handle_recv rest with
      | none => none
      | some (r, rem, pongs) => some (r, rem, "3" :: pongs)
    else
      some (m, rest, [])

/-- A websocket channel: the queue of inbound messages not yet received, and the
messages sent so far, in order. -/
structure Chan where
  inbound : List String
  outbound : List String

/-- Model of `self.ws.send(m)`. -/
def wsSend (c : Chan) (m : String) : Chan :=
  { c with outbound := c.outbound ++ [m] }

/-- Model of `await self.ws.recv()`: `none` models blocking forever. -/
def wsRecv (c : Chan) : Option (String × Chan) :=
  match c.inbound with
  | [] => none
  | m :: rest => some (m, { c with inbound := rest })

/-- The three `logging.warning` sites of `_hello`. -/
inductive HelloWarning where
  | probeMismatch
  | ackMismatch
  | readyMismatch
deriving DecidableEq

/-- `IbukWebSocketSession._hello` (main.py lines 163-172): send `"2probe"`, read
the probe reply (warn if not `"3probe"`), send `"5"`, send `"40/books,"`, read
the namespace ack (warn unless it starts with `"40/books,"`), read the ready
event (warn unless it contains `42/books,["ready"`).  Mismatches only warn; a
`some` result is a completed handshake (the session is Ready), carrying the
warnings issued and the final channel state. -/
def hello (c : Chan) : Option (List HelloWarning × Chan) :=
  let c1 := wsSend c "2probe"
  match wsRecv c1 with
  | none => none
  | some (resp, c2) =>
    let w1 : List HelloWarning := if resp == "3probe" then [] else [.probeMismatch]
    let c3 := wsSend (wsSend c2 "5") "40/books,"
    match wsRecv c3 with
    | none => none
    | some (ack, c4) =>
      let w2 : List HelloWarning :=
        if listPrefix "40/books,".data ack.data then [] else [.ackMismatch]
      match wsRecv c4 with
      | none => none
      | some (ready, c5) =>
        let w3 : List HelloWarning :=
          if strContains ready "42/books,[\"ready\"" then [] else [.readyMismatch]
        some (w1 ++ w2 ++ w3, c5)

/-- The page loop of `perform_download_action` (main.py lines 244-254), run over
an explicit list of page indices with a fetch oracle: `fetch i = .ok html`
models `get_page` returning a fragment, `.error msg` models it raising
`PermissionError(msg)`.  Returns the persisted `(index, html)` pairs in write
order, the final `num_downloaded` counter, and the indices attempted (in order);
on a `PermissionError` the loop logs and `break`s. -/
def runDownload (fetch : Nat → Except String String) :
    List Nat → List (Nat × String) × Nat × List Nat
  | [] => ([], 0, [])
  | i :: rest =>
    match fetch i with
    | .ok h =>
      let r := runDownload fetch rest
      ((i, h) :: r.1, r.2.1 + 1, i :: r.2.2)
    | .error _ => ([], 0, [i])

/-- `perform_download_action`'s page acquisition (main.py lines 244-259): iterate
`for i in range(1, page_count + 1)`. -/
def perform_download_action (fetch : Nat → Except String String) (page_count : Nat) :
    List (Nat × String) × Nat × List Nat :=
  runDownload fetch (List.range' 1 page_count)

/-- The print/log events of `merge_pdfs`. -/
inductive MergeLog where
  | noParts
  | merging (count : Nat)
  | success
deriving DecidableEq

/-- `merge_pdfs` (main.py lines 353-372).  A pdf part is modelled as its list of
physical pages; `merger.append(part, pages=(0, 1))` appends only the first
physical page.  The result is the log lines printed and `some pages` for a
written output file (`none` when the function returns early without writing,
as it does on an empty input list). -/
def merge_pdfs (pdf_parts : List (List String)) : List MergeLog × Option (List String) :=
  if pdf_parts.isEmpty then
    ([.noParts], none)
  else
    ([.merging pdf_parts.length, .success],
     some ((pdf_parts.map (fun d => d.take 1)).flatten))

/-- Write `b` into position `i` of a slot list (no-op when out of range). -/
def setSlot {α : Type} : List (Option α) → Nat → α → List (Option α)
  | [], _, _ => []
  | _ :: xs, 0, b => some b :: xs
  | x :: xs, n + 1, b => x :: setSlot xs n b

/-- Model of `asyncio.gather` over the render tasks: tasks are spawned in list
order, complete in the arbitrary order `sched` (a list of task positions), and
each completion stores the result of its own task into its own slot; `gather`
returns the slots in task order, independent of completion order. -/
def gatherRun {α : Type} (f : Nat → α) (tasks : List Nat) (sched : List Nat) :
    List (Option α) :=
  sched.foldl (fun slots i => setSlot slots i (f (tasks.getD i 0)))
    (List.replicate tasks.length none)

/-- The pdf branch of `perform_convert_action` (main.py lines 420-463) over the
set of fragment files, each named by its numeric index: sort by the integer
basename, drop the fragments classified empty (`emptyOf i` is the
`is_html_empty` verdict for file `i`), render the survivors concurrently
(`renderOf i = some doc` is a successful `convert_single_page` producing the
physical pages `doc`; `none` is a caught per-page failure), gather the results
in task order under completion schedule `sched`, keep the non-`None` results,
and merge. -/
def perform_convert_pdf (emptyOf : Nat → Bool) (renderOf : Nat → Option (List String))
    (files : List Nat) (sched : List Nat) : List MergeLog × Option (List String) :=
  let sorted_files := List.insertionSort (· ≤ ·) files
  let valid_html_files := sorted_files.filter (fun i => !emptyOf i)
  let results := gatherRun renderOf valid_html_files sched
  let pdf_parts := (results.filterMap id).filterMap id
  merge_pdfs pdf_parts

/-- The fragments the pipeline keeps, read off the claim: the input files in
ascending index order that are classified non-empty and whose render
succeeded. -/
def convertSelected (emptyOf : Nat → Bool) (renderOf : Nat → Option (List String))
    (files : List Nat) : List Nat :=
  (List.insertionSort (· ≤ ·) files).filter (fun i => !emptyOf i && (renderOf i).isSome)

mutual
/-- A parsed HTML node as BeautifulSoup exposes it to `is_html_empty`: a string,
or an element with a tag name, an optional inline `style` attribute, and
children. -/
inductive HtmlNode where
  | text (s : String)
  | elem (tag : String) (style : Option String) (children : HtmlForest)

/-- A list of sibling HTML nodes (spelled as a mutual inductive so that the
classifier is structurally recursive). -/
inductive HtmlForest where
  | nil
  | cons (n : HtmlNode) (rest : HtmlForest)
end

mutual
/-- Does the subtree rooted at this node contain any non-whitespace text?
`body.get_text(strip=True) != ""` holds exactly when some text node under the
body has a character that does not strip away. -/
def nodeHasText : HtmlNode → Bool
  | .text s => s.data.any (fun c => !c.isWhitespace)
  | .elem _ _ cs => forestHasText cs

/-- Forest version of `nodeHasText`. -/
def forestHasText : HtmlForest → Bool
  | .nil => false
  | .cons n rest => nodeHasText n || forestHasText rest
end

/-- The tag names `is_html_empty` treats as media-bearing (main.py line 288). -/
def mediaTags : List String := ["img", "svg", "image", "iframe", "canvas", "embed", "video"]

mutual
/-- Does this node, or a descendant, carry a media tag?  Matches what
`body.find_all(['img', 'svg', 'image', 'iframe', 'canvas', 'embed', 'video'])`
finds below the body. -/
def nodeHasMedia : HtmlNode → Bool
  | .text _ => false
  | .elem t _ cs => mediaTags.contains t || forestHasMedia cs

/-- Forest version of `nodeHasMedia`. -/
def forestHasMedia : HtmlForest → Bool
  | .nil => false
  | .cons n rest => nodeHasMedia n || forestHasMedia rest
end

/-- The check applied to each tag's `style` attribute (main.py lines 293-295):
an attribute is present and contains `'url('`. -/
def styleHasUrl : Option String → Bool
  | none => false
  | some s => containsSub "url(".data s.data

mutual
/-- Does this node, or a descendant, have an inline style containing `'url('`?
Matches the loop over `body.find_all(True)` (all descendant tags). -/
def nodeHasUrlStyle : HtmlNode → Bool
  | .text _ => false
  | .elem _ st cs => styleHasUrl st || forestHasUrlStyle cs

/-- Forest version of `nodeHasUrlStyle`. -/
def forestHasUrlStyle : HtmlForest → Bool
  | .nil => false
  | .cons n rest => nodeHasUrlStyle n || forestHasUrlStyle rest
end

/-- What opening and parsing one fragment file yields for `is_html_empty`:
`failure` models any exception (unopenable file, parser error); `parsed none`
a document with no `body` element; `parsed (some f)` a body whose children are
the forest `f` (the three checks of the classifier all search strictly below
the body tag). -/
inductive ParsedFile where
  | failure
  | parsed (body : Option HtmlForest)

/-- `is_html_empty` (main.py lines 271-300): exceptions return `False`
(non-empty); a missing body returns `True` (empty); otherwise empty exactly
when the body has no visible text, no media element and, checked only then, no
descendant inline style containing `'url('`. -/
def is_html_empty : ParsedFile → Bool
  | .failure => false
  | .parsed none => true
  | .parsed (some body) =>
    if !forestHasText body && !forestHasMedia body then
      if forestHasUrlStyle body then false else true
    else
      false

/-! Theorems. -/

/-- C2: heartbeat interleaving is transparent.  For every inbound sequence,
prefixing any number of bare `"2"` ping packets before the real response does
not change the value `_handle_recv` returns (nor the remaining queue), and the
client replies with a bare `"3"` to each such ping before continuing to wait. -/
theorem heartbeat_transparent (n : Nat) (msg : String) (rest : List String)
    (h : msg ≠ "2") :
    handle_recv (List.replicate n "2" ++ msg :: rest) =
      some (msg, rest, List.replicate n "3") ∧
    handle_recv (msg :: rest) = some (msg, rest, []) := by
  have hbase : handle_recv (msg :: rest) = some (msg, rest, []) := by
    rw [handle_recv, if_neg (by simpa using h)]
  refine ⟨?_, hbase⟩
  induction n with
  | zero => simpa using hbase
  | succ n ih =>
    rw [List.replicate_succ, List.cons_append, handle_recv, if_pos (by simp), ih]
    simp [List.replicate_succ]

/-- C2 witness: two pings in front of the response `"x"`. -/
theorem heartbeat_transparent_witness :
    handle_recv (List.replicate 2 "2" ++ "x" :: ["y"]) =
      some ("x", ["y"], List.replicate 2 "3") ∧
    handle_recv ("x" :: ["y"]) = some ("x", ["y"], []) :=
  heartbeat_transparent 2 "x" ["y"] (by decide)

/-- C5 counterexample: the claim says a present `error` field always fails the
call, even with a falsy value; but on the decoded object
`{error: false, html: "h"}` the `error` field is present and `get_page` still
returns the `html` field, because the code tests truthiness
(`data.get("error", False)`), not presence. -/
theorem get_page_error_field_counterexample :
    List.lookup "error" [("error", PyVal.pyBool false), ("html", PyVal.pyStr "h")] =
      some (PyVal.pyBool false) ∧
    get_page_decode [("error", PyVal.pyBool false), ("html", PyVal.pyStr "h")] =
      .ok (PyVal.pyStr "h") :=
  ⟨rfl, rfl⟩

/-- C5 amended: for every decoded page-fetch result object, if the `error`
field is present with a truthy value the call fails with an Authorization
error carrying the server-supplied `message` (or the fixed fallback text when
`message` is absent); if `error` is absent or falsy, the call returns the
`html` field (a missing-key failure when `html` is absent). -/
theorem get_page_decode_amended (data : PyDict) :
    (pyTruthy (pyGet data "error" (.pyBool false)) = true →
       get_page_decode data =
         .error (.authorization (pyGet data "message" (.pyStr "Error fetching page")))) ∧
    (pyTruthy (pyGet data "error" (.pyBool false)) = false →
       (∀ v, data.lookup "html" = some v → get_page_decode data = .ok v) ∧
       (data.lookup "html" = none → get_page_decode data = .error (.keyError "html"))) := by
  refine ⟨fun h => ?_, fun h => ⟨fun v hv => ?_, fun hv => ?_⟩⟩ <;>
    simp [get_page_decode, *]

/-- C5 witness: a truthy `error` with a server-supplied message. -/
theorem get_page_decode_amended_witness :
    pyTruthy (pyGet [("error", PyVal.pyBool true), ("message", PyVal.pyStr "denied")]
        "error" (.pyBool false)) = true ∧
    get_page_decode [("error", PyVal.pyBool true), ("message", PyVal.pyStr "denied")] =
      .error (.authorization (pyGet [("error", PyVal.pyBool true),
        ("message", PyVal.pyStr "denied")] "message" (.pyStr "Error fetching page"))) :=
  ⟨rfl, (get_page_decode_amended _).1 rfl⟩

/-- C6: for a parseable fragment with a body, `is_html_empty` returns empty
exactly when the body has no non-whitespace text, no media-bearing descendant
(img, svg, image, iframe, canvas, embed, video) and no descendant inline style
containing `url(`; in particular `<body></body>` is empty and
`<body><img src=x></body>` is non-empty. -/
theorem is_html_empty_characterization :
    (∀ body : HtmlForest,
       is_html_empty (.parsed (some body)) = true ↔
         (forestHasText body = false ∧ forestHasMedia body = false ∧
          forestHasUrlStyle body = false)) ∧
    is_html_empty (.parsed (some .nil)) = true ∧
    is_html_empty (.parsed (some (.cons (.elem "img" none .nil) .nil))) = false := by
  refine ⟨fun body => ?_, rfl, rfl⟩
  by_cases h1 : forestHasText body <;> by_cases h2 : forestHasMedia body <;>
    by_cases h3 : forestHasUrlStyle body <;> simp [is_html_empty, h1, h2, h3]

/-- C7: the handshake sends exactly `"2probe"`, `"5"`, `"40/books,"` in that
order, consumes three inbound messages, and never aborts on a mismatched
confirmation: for every triple of inbound messages it completes (mismatches
only produce warnings) and the session is Ready; in particular the exact
sequence `3probe` / `40/books,` / `42/books,["ready"]` completes with no
warnings. -/
theorem hello_handshake_tolerant :
    (∀ (m1 m2 m3 : String) (rest out0 : List String),
       hello ⟨m1 :: m2 :: m3 :: rest, out0⟩ =
         some ((if m1 == "3probe" then [] else [.probeMismatch]) ++
               (if listPrefix "40/books,".data m2.data then [] else [.ackMismatch]) ++
               (if strContains m3 "42/books,[\"ready\"" then [] else [.readyMismatch]),
               ⟨rest, out0 ++ ["2probe", "5", "40/books,"]⟩)) ∧
    hello ⟨["3probe", "40/books,", "42/books,[\"ready\"]"], []⟩ =
      some ([], ⟨[], ["2probe", "5", "40/books,"]⟩) := by
  constructor
  · intro m1 m2 m3 rest out0
    simp [hello, wsSend, wsRecv]
  · rfl

/-- C8: an empty list of pdf parts makes the merge a reported no-op: the
function prints the condition, writes no output (not even an empty artifact)
and returns normally. -/
theorem merge_empty_noop :
    merge_pdfs [] = ([MergeLog.noParts], none) :=
  rfl

/-- C9: unlike `get_page`, the `get_css` and `get_fonts` decode steps never
inspect the `error` field: on any result object without `html` (in particular
one signalling an error) they fail with the missing-key error — their error
type has no authorization variant at all — and on any object carrying `html`
they succeed even when `error` is also present (`get_fonts` applying its
documented `; format` normalization). -/
theorem css_fonts_ignore_error (data : PyDict) :
    (data.lookup "html" = none →
       get_css_decode data = .error (.keyError "html") ∧
       get_fonts_decode data = .error (.keyError "html")) ∧
    (∀ v, data.lookup "html" = some v → get_css_decode data = .ok v) ∧
    (∀ s, data.lookup "html" = some (.pyStr s) →
       get_fonts_decode data = .ok (.pyStr (pyReplace "; format" " format" s))) := by
  refine ⟨fun h => ⟨?_, ?_⟩, fun v hv => ?_, fun s hs => ?_⟩ <;>
    simp [get_css_decode, get_fonts_decode, *]

/-- C9 witness: an object with a truthy `error` and no `html` gets the
missing-key failure from both operations, and one with both fields succeeds. -/
theorem css_fonts_ignore_error_witness :
    (get_css_decode [("error", PyVal.pyBool true)] = .error (.keyError "html") ∧
     get_fonts_decode [("error", PyVal.pyBool true)] = .error (.keyError "html")) ∧
    get_css_decode [("error", PyVal.pyBool true), ("html", PyVal.pyStr "c")] =
      .ok (PyVal.pyStr "c") :=
  ⟨(css_fonts_ignore_error [("error", PyVal.pyBool true)]).1 rfl,
   (css_fonts_ignore_error [("error", PyVal.pyBool true), ("html", PyVal.pyStr "c")]).2.1
     (PyVal.pyStr "c") rfl⟩

/-- C10: the classifier is total and fails closed toward rendering: any
exception while opening or processing the file yields non-empty (the fragment
proceeds to rendering), and a parsed document with no body element yields
empty (the fragment is skipped). -/
theorem is_html_empty_fail_closed :
    is_html_empty .failure = false ∧ is_html_empty (.parsed none) = true :=
  ⟨rfl, rfl⟩

/-- Running the download loop over `range' a n` when the first `m` indices
succeed and index `a + m` fails with a PermissionError: the persisted pages are
exactly those of `range' a m`, the counter is `m`, and the attempted indices
are `range' a (m + 1)`. -/
theorem runDownload_range' (fetch : Nat → Except String String) (g : Nat → String)
    (e : String) :
    ∀ (m a n : Nat),
      (∀ i, a ≤ i → i < a + m → fetch i = .ok (g i)) →
      fetch (a + m) = .error e →
      m < n →
      runDownload fetch (List.range' a n) =
        ((List.range' a m).map (fun i => (i, g i)), m, List.range' a (m + 1)) := by
  intro m
  induction m with
  | zero =>
    intro a n hok herr hn
    obtain ⟨n', rfl⟩ : ∃ n', n = n' + 1 := ⟨n - 1, by omega⟩
    rw [Nat.add_zero] at herr
    rw [List.range'_succ, runDownload, herr]
    simp [List.range'_succ]
  | succ m ih =>
    intro a n hok herr hn
    obtain ⟨n', rfl⟩ : ∃ n', n = n' + 1 := ⟨n - 1, by omega⟩
    rw [List.range'_succ, runDownload, hok a (Nat.le_refl a) (by omega)]
    rw [ih (a + 1) n' (fun i h1 h2 => hok i (by omega) (by omega))
      (by rw [show a + 1 + m = a + (m + 1) by omega]; exact herr) (by omega)]
    simp [List.range'_succ]

/-- C1: if pages `1..k-1` succeed and fetching page `k` fails with an
Authorization (PermissionError) failure, the download loop over any page count
`N ≥ k` persists exactly the fragments `1..k-1` in order, reports a downloaded
count of `k - 1`, and attempts exactly the indices `1..k` (none at or beyond
`k` after the failure). -/
theorem download_stops_at_authorization (fetch : Nat → Except String String)
    (g : Nat → String) (e : String) (N k : Nat)
    (hk1 : 1 ≤ k) (hkN : k ≤ N)
    (hok : ∀ i, 1 ≤ i → i < k → fetch i = .ok (g i))
    (herr : fetch k = .error e) :
    perform_download_action fetch N =
      ((List.range' 1 (k - 1)).map (fun i => (i, g i)), k - 1, List.range' 1 k) ∧
    ∀ j ∈ (perform_download_action fetch N).2.2, j ≤ k := by
  have hmain := runDownload_range' fetch g e (k - 1) 1 N
    (fun i hi1 hi2 => hok i hi1 (by omega))
    (by rw [show 1 + (k - 1) = k by omega]; exact herr) (by omega)
  rw [show k - 1 + 1 = k by omega] at hmain
  refine ⟨by rw [perform_download_action, hmain], ?_⟩
  rw [perform_download_action, hmain]
  intro j hj
  have := List.mem_range'_1.mp hj
  omega

/-- C1 witness: five requested pages, authorization denied at page 3. -/
theorem download_stops_at_authorization_witness :
    perform_download_action (fun i => if i ≤ 2 then .ok "h" else .error "denied") 5 =
      ((List.range' 1 (3 - 1)).map (fun i => (i, "h")), 3 - 1, List.range' 1 3) ∧
    ∀ j ∈ (perform_download_action
        (fun i => if i ≤ 2 then .ok "h" else .error "denied") 5).2.2, j ≤ 3 :=
  download_stops_at_authorization _ (fun _ => "h") "denied" 5 3 (by decide) (by decide)
    (fun i h1 h2 => by simp [show i ≤ 2 by omega]) (by simp)

/-- A list is a boolean prefix of itself followed by anything. -/
theorem listPrefix_append_self (l t : List Char) : listPrefix l (l ++ t) = true := by
  induction l with
  | nil => rfl
  | cons a as ih => simp [listPrefix, ih]

/-- When the separator occurs nowhere in the input, `pySplitGo` yields a single
chunk: the accumulator followed by the whole input. -/
theorem pySplitGo_of_not_contains (sep : List Char) :
    ∀ (s : List Char) (fuel : Nat) (acc : List Char),
      containsSub sep s = false →
      pySplitGo sep fuel acc s = [acc.reverse ++ s] := by
  intro s
  induction s with
  | nil => intro fuel acc _; cases fuel <;> simp [pySplitGo]
  | cons c cs ih =>
    intro fuel acc h
    rw [containsSub] at h
    simp only [Bool.or_eq_false_iff] at h
    cases fuel with
    | zero => simp [pySplitGo]
    | succ fuel =>
      rw [pySplitGo, if_neg (by simp [h.1]), ih fuel (c :: acc) h.2]
      simp

/-- Splitting `sep ++ t` at a non-empty `sep` that does not occur in `t` yields
exactly the chunks `[]` and `t`. -/
theorem pySplitGo_sep_append (sep t : List Char) (fuel : Nat) (hsep : sep ≠ [])
    (h : containsSub sep t = false) :
    pySplitGo sep (fuel + 1) [] (sep ++ t) = [[], t] := by
  cases sep with
  | nil => exact absurd rfl hsep
  | cons c cs =>
    rw [List.cons_append, pySplitGo,
      if_pos (by simp; exact listPrefix_append_self (c :: cs) t)]
    have hdrop : (c :: (cs ++ t)).drop (c :: cs).length = t := by
      exact List.drop_left (c :: cs) t
    rw [hdrop, pySplitGo_of_not_contains (c :: cs) t fuel [] h]
    simp

/-- C3 counterexample: the claim says that for a message whose payload itself
contains the `42/books,` prefix, the string taken as the JSON array is still
the full suffix after the leading prefix.  On the concrete message
`42/books,ab42/books,cd` the code's `r.split("42/books,")[1]` yields `"ab"`,
truncated at the payload's own occurrence, not the full suffix
`"ab42/books,cd"` the spec describes. -/
theorem rpc_tail_counterexample :
    rpcTail "42/books,ab42/books,cd" = some "ab" ∧
    specRpcTail "42/books,ab42/books,cd" = some "ab42/books,cd" ∧
    rpcTail "42/books,ab42/books,cd" ≠ specRpcTail "42/books,ab42/books,cd" := by
  refine ⟨rfl, rfl, ?_⟩
  decide

/-- C3 amended: the RPC response is decoded by splitting the message at every
occurrence of `42/books,` and taking the second chunk; this equals the full
suffix after the leading prefix exactly for payloads that do not themselves
contain the prefix string (a payload containing it is truncated at that
occurrence, as the counterexample shows). -/
theorem rpc_tail_amended (t : List Char) (h : containsSub rpcSep.data t = false) :
    rpcTail (String.mk (rpcSep.data ++ t)) = some (String.mk t) ∧
    specRpcTail (String.mk (rpcSep.data ++ t)) = some (String.mk t) := by
  constructor
  · show (match pySplit rpcSep (String.mk (rpcSep.data ++ t)) with
      | _ :: t :: _ => some t
      | _ => none) = some (String.mk t)
    have hsplit : pySplit rpcSep (String.mk (rpcSep.data ++ t)) =
        [String.mk [], String.mk t] := by
      show (pySplitGo rpcSep.data ((rpcSep.data ++ t).length + 1) []
        (rpcSep.data ++ t)).map String.mk = _
      rw [pySplitGo_sep_append rpcSep.data t ((rpcSep.data ++ t).length)
        (by decide) h]
      rfl
    rw [hsplit]
  · show (if listPrefix rpcSep.data (rpcSep.data ++ t) then
        some (String.mk ((rpcSep.data ++ t).drop rpcSep.data.length))
      else none) = some (String.mk t)
    rw [if_pos (listPrefix_append_self rpcSep.data t), List.drop_left]

/-- C3 amended witness: a payload not containing the prefix is recovered in
full. -/
theorem rpc_tail_amended_witness :
    containsSub rpcSep.data "ab".data = false ∧
    (rpcTail (String.mk (rpcSep.data ++ "ab".data)) = some (String.mk "ab".data) ∧
     specRpcTail (String.mk (rpcSep.data ++ "ab".data)) = some (String.mk "ab".data)) :=
  ⟨by decide, rpc_tail_amended "ab".data (by decide)⟩

/-- Writing into a slot list preserves its length. -/
theorem setSlot_length {α : Type} (s : List (Option α)) (i : Nat) (b : α) :
    (setSlot s i b).length = s.length := by
  induction s generalizing i with
  | nil => rfl
  | cons x xs ih => cases i <;> simp [setSlot, ih]

/-- Writing past the end of a slot list is a no-op. -/
theorem setSlot_oob {α : Type} (s : List (Option α)) (i : Nat) (b : α)
    (h : s.length ≤ i) : setSlot s i b = s := by
  induction s generalizing i with
  | nil => rfl
  | cons x xs ih =>
    cases i with
    | zero => simp at h
    | succ n => simp [setSlot, ih n (by simpa using h)]

/-- Reading back the slot just written. -/
theorem getElem?_setSlot_self {α : Type} (s : List (Option α)) (i : Nat) (b : α)
    (h : i < s.length) : (setSlot s i b)[i]? = some (some b) := by
  induction s generalizing i with
  | nil => simp at h
  | cons x xs ih =>
    cases i with
    | zero => simp [setSlot]
    | succ n => simpa [setSlot] using ih n (by simpa using h)

/-- Writing one slot leaves every other slot unchanged. -/
theorem getElem?_setSlot_other {α : Type} (s : List (Option α)) (i j : Nat) (b : α)
    (h : j ≠ i) : (setSlot s i b)[j]? = s[j]? := by
  induction s generalizing i j with
  | nil => rfl
  | cons x xs ih =>
    cases i with
    | zero =>
      cases j with
      | zero => exact absurd rfl h
      | succ m => simp [setSlot]
    | succ n =>
      cases j with
      | zero => simp [setSlot]
      | succ m => simpa [setSlot] using ih n m (by omega)

/-- Slot contents after folding completions over a schedule: a slot position in
the schedule (and in range) holds its own task's result; any other slot is
untouched. -/
theorem gather_foldl_getElem? {α : Type} (f : Nat → α) (tasks : List Nat) :
    ∀ (sched : List Nat) (slots : List (Option α)) (j : Nat),
      (sched.foldl (fun sl i => setSlot sl i (f (tasks.getD i 0))) slots)[j]? =
        if j ∈ sched ∧ j < slots.length then some (some (f (tasks.getD j 0)))
        else slots[j]? := by
  intro sched
  induction sched with
  | nil => intro slots j; simp
  | cons i rest ih =>
    intro slots j
    rw [List.foldl_cons, ih, setSlot_length]
    by_cases hm : j ∈ rest
    · by_cases hlen : j < slots.length
      · simp [hm, hlen]
      · rw [if_neg (by tauto), if_neg (by tauto)]
        by_cases hji : j = i
        · subst hji
          rw [setSlot_oob _ _ _ (by omega)]
        · rw [getElem?_setSlot_other _ _ _ _ hji]
    · by_cases hji : j = i
      · subst hji
        by_cases hlen : j < slots.length
        · rw [if_neg (by tauto), getElem?_setSlot_self _ _ _ hlen,
            if_pos ⟨List.mem_cons_self _ _, hlen⟩]
        · rw [if_neg (by tauto), if_neg (by tauto), setSlot_oob _ _ _ (by omega)]
      · rw [if_neg (by tauto), getElem?_setSlot_other _ _ _ _ hji,
          if_neg (by simp [List.mem_cons]; tauto)]

/-- When the schedule completes every task, `gather` returns exactly each
task's result, in task order — independent of the completion order. -/
theorem gatherRun_complete {α : Type} (f : Nat → α) (tasks : List Nat)
    (sched : List Nat) (hcov : ∀ j, j < tasks.length → j ∈ sched) :
    gatherRun f tasks sched = tasks.map (fun t => some (f t)) := by
  apply List.ext_getElem?
  intro j
  rw [gatherRun, gather_foldl_getElem?, List.length_replicate]
  by_cases hj : j < tasks.length
  · rw [if_pos ⟨hcov j hj, hj⟩, List.getElem?_map, List.getElem?_eq_getElem hj]
    simp [List.getD_eq_getElem?_getD, List.getElem?_eq_getElem hj]
  · rw [if_neg (by tauto), List.getElem?_replicate, if_neg hj, List.getElem?_map,
      List.getElem?_eq_none (by omega)]
    rfl

/-- `filterMap` split into its filter and its map. -/
theorem filterMap_eq_filter_map_getD {α β : Type} (g : α → Option β) (d : β)
    (l : List α) :
    l.filterMap g = (l.filter (fun a => (g a).isSome)).map (fun a => (g a).getD d) := by
  induction l with
  | nil => rfl
  | cons a l ih =>
    cases hga : g a <;> simp [List.filterMap_cons, List.filter_cons, hga, ih]

/-- Flattening blocks of length one preserves the outer length. -/
theorem flatten_length_ones {α β : Type} (f : α → List β) (l : List α)
    (h : ∀ a ∈ l, (f a).length = 1) :
    ((l.map f).flatten).length = l.length := by
  induction l with
  | nil => rfl
  | cons a l ih =>
    simp only [List.map_cons, List.flatten_cons, List.length_append,
      h a (List.mem_cons_self a l), ih (fun b hb => h b (List.mem_cons_of_mem a hb)),
      List.length_cons]
    omega

/-- The pdf parts handed to the merger are exactly the selected fragments'
rendered documents, in ascending index order. -/
theorem convert_parts_eq (emptyOf : Nat → Bool) (renderOf : Nat → Option (List String))
    (files : List Nat) (sched : List Nat)
    (hcov : ∀ j, j < ((List.insertionSort (· ≤ ·) files).filter
        (fun i => !emptyOf i)).length → j ∈ sched) :
    ((gatherRun renderOf ((List.insertionSort (· ≤ ·) files).filter
        (fun i => !emptyOf i)) sched).filterMap id).filterMap id =
      (convertSelected emptyOf renderOf files).map (fun i => (renderOf i).getD []) := by
  rw [gatherRun_complete renderOf _ sched hcov]
  rw [List.filterMap_map]
  have h1 : (id ∘ fun t => some (renderOf t)) = some ∘ renderOf := rfl
  rw [h1, List.filterMap_eq_map, List.filterMap_map]
  have h2 : (id ∘ renderOf) = renderOf := rfl
  rw [h2, filterMap_eq_filter_map_getD renderOf [], List.filter_filter]
  rw [convertSelected]
  congr 1
  apply List.filter_congr
  intro i _
  rw [Bool.and_comm]

/-- C4: with distinct input indices and a completion schedule covering every
render task, the merged output is defined exactly when some fragment survives,
and then contains the first physical page of each fragment that is classified
non-empty and renders successfully — in strictly ascending index order (hence
no fragment twice), each contributing exactly one page, independent of
completion order. -/
theorem convert_merge_order (emptyOf : Nat → Bool) (renderOf : Nat → Option (List String))
    (files : List Nat) (sched : List Nat)
    (hnd : files.Nodup)
    (hcov : ∀ j, j < ((List.insertionSort (· ≤ ·) files).filter
        (fun i => !emptyOf i)).length → j ∈ sched)
    (hne : ∀ i d, renderOf i = some d → d ≠ []) :
    (convertSelected emptyOf renderOf files ≠ [] →
       (perform_convert_pdf emptyOf renderOf files sched).2 =
         some (((convertSelected emptyOf renderOf files).map
           (fun i => ((renderOf i).getD []).take 1)).flatten)) ∧
    (convertSelected emptyOf renderOf files = [] →
       (perform_convert_pdf emptyOf renderOf files sched).2 = none) ∧
    List.Pairwise (· < ·) (convertSelected emptyOf renderOf files) ∧
    (∀ i, i ∈ convertSelected emptyOf renderOf files ↔
       i ∈ files ∧ emptyOf i = false ∧ (renderOf i).isSome = true) ∧
    (((convertSelected emptyOf renderOf files).map
        (fun i => ((renderOf i).getD []).take 1)).flatten).length =
      (convertSelected emptyOf renderOf files).length := by
  have hmem : ∀ i, i ∈ convertSelected emptyOf renderOf files ↔
      i ∈ files ∧ emptyOf i = false ∧ (renderOf i).isSome = true := by
    intro i
    rw [convertSelected, List.mem_filter,
      (List.perm_insertionSort (· ≤ ·) files).mem_iff]
    simp [Bool.and_eq_true, Bool.not_eq_true']
  have hlen1 : ∀ i ∈ convertSelected emptyOf renderOf files,
      (((renderOf i).getD []).take 1).length = 1 := by
    intro i hi
    obtain ⟨-, -, hsome⟩ := (hmem i).mp hi
    obtain ⟨d, hd⟩ := Option.isSome_iff_exists.mp hsome
    have hdne := hne i d hd
    rw [hd]
    simp only [Option.getD_some, List.length_take]
    have : 0 < d.length := List.length_pos.mpr hdne
    omega
  have hpipe : (perform_convert_pdf emptyOf renderOf files sched).2 =
      (merge_pdfs ((convertSelected emptyOf renderOf files).map
        (fun i => (renderOf i).getD []))).2 := by
    rw [perform_convert_pdf, convert_parts_eq emptyOf renderOf files sched hcov]
  refine ⟨?_, ?_, ?_, hmem, flatten_length_ones _ _ hlen1⟩
  · intro hne'
    rw [hpipe, merge_pdfs,
      if_neg (by simp only [List.isEmpty_eq_true, List.map_eq_nil_iff]; exact hne')]
    simp only [List.map_map]
    rfl
  · intro he
    rw [hpipe, he]
    rfl
  · have hs1 : List.Pairwise (· ≤ ·) (List.insertionSort (· ≤ ·) files) :=
      List.sorted_insertionSort _ _
    have hnd1 : (List.insertionSort (· ≤ ·) files).Nodup :=
      (List.perm_insertionSort (· ≤ ·) files).symm.nodup hnd
    have hle : List.Pairwise (· ≤ ·) (convertSelected emptyOf renderOf files) :=
      hs1.filter _
    have hneq : List.Pairwise (· ≠ ·) (convertSelected emptyOf renderOf files) :=
      hnd1.filter _
    exact (hle.and hneq).imp (fun h => lt_of_le_of_ne h.1 h.2)

/-- C4 witness: files 3, 1, 2, 5 with fragment 2 classified empty, fragment 3
failing to render, and the completion schedule reversed. -/
theorem convert_merge_order_witness :
    (convertSelected (fun i => i == 2) (fun i => if i == 3 then none else some [toString i])
        [3, 1, 2, 5] ≠ [] →
      (perform_convert_pdf (fun i => i == 2)
          (fun i => if i == 3 then none else some [toString i]) [3, 1, 2, 5] [2, 0, 1]).2 =
        some (((convertSelected (fun i => i == 2)
            (fun i => if i == 3 then none else some [toString i]) [3, 1, 2, 5]).map
          (fun i => (((fun i => if i == 3 then none else some [toString i]) i).getD []).take 1)).flatten)) ∧
    (convertSelected (fun i => i == 2) (fun i => if i == 3 then none else some [toString i])
        [3, 1, 2, 5] = [] →
      (perform_convert_pdf (fun i => i == 2)
          (fun i => if i == 3 then none else some [toString i]) [3, 1, 2, 5] [2, 0, 1]).2 = none) ∧
    List.Pairwise (· < ·) (convertSelected (fun i => i == 2)
      (fun i => if i == 3 then none else some [toString i]) [3, 1, 2, 5]) ∧
    (∀ i, i ∈ convertSelected (fun i => i == 2)
        (fun i => if i == 3 then none else some [toString i]) [3, 1, 2, 5] ↔
      i ∈ [3, 1, 2, 5] ∧ (i == 2) = false ∧
        ((fun i => if i == 3 then none else some [toString i]) i).isSome = true) ∧
    (((convertSelected (fun i => i == 2)
        (fun i => if i == 3 then none else some [toString i]) [3, 1, 2, 5]).map
      (fun i => (((fun i => if i == 3 then none else some [toString i]) i).getD []).take 1)).flatten).length =
      (convertSelected (fun i => i == 2)
        (fun i => if i == 3 then none else some [toString i]) [3, 1, 2, 5]).length :=
  convert_merge_order (fun i => i == 2) (fun i => if i == 3 then none else some [toString i])
    [3, 1, 2, 5] [2, 0, 1] (by decide) (by decide)
    (fun i d h => by
      by_cases hi : (i == 3) = true
      · simp [hi] at h
      · simp only [hi, Bool.false_eq_true, if_false, Option.some.injEq] at h
        rw [← h]
        simp)

end IbukDl
